import Mathlib

/-!
Verification of the `cfgfifo` configuration-file dispatcher (src/src/lib.rs).

The development shallowly embeds the library's format registry
(`Format.extensions`, `Format.has_extension`, `Format.from_extension`,
`Format.identify`), the configurable dispatcher (`Cfgfifo`), and the
load/dump glue.  The five external codec crates (serde_json, json5, ron,
toml, serde_yaml) are outside the repository; they are represented by a
`Codecs` record modelled from the spec's codec-boundary contract, and
theorems about codec-dependent behaviour take the relevant codec facts as
hypotheses.
-/

namespace Cfg

/-- ASCII lower-casing of a single character, as performed byte-wise by
Rust's `eq_ignore_ascii_case`. -/
def asciiLowerChar (c : Char) : Char :=
  if 65 ≤ c.toNat ∧ c.toNat ≤ 90 then Char.ofNat (c.toNat + 32) else c

/-- The character list of a string with ASCII upper-case letters lowered. -/
def lowered (s : String) : List Char := s.data.map asciiLowerChar

/-- Rust's `str::eq_ignore_ascii_case`. -/
def eqIgnoreAsciiCase (a b : String) : Bool := lowered a == lowered b

/-- `ext.strip_prefix('.').unwrap_or(ext)` from `Format::has_extension`. -/
def stripPrefixDot (s : String) : String :=
  match s.data with
  | '.' :: rest => String.mk rest
  | _ => s

/-- The `Format` enum (lib.rs lines 127-168), in declaration order, with all
five Cargo features enabled (the default build). -/
inductive Format where
  | json
  | json5
  | ron
  | toml
  | yaml
deriving DecidableEq

/-- `Format::iter()`: every variant in declaration order (strum's EnumIter). -/
def Format.iter : List Format := [.json, .json5, .ron, .toml, .yaml]

/-- `Format::extensions` (lib.rs lines 190-205). -/
def Format.extensions : Format → List String
  | .json => ["json"]
  | .json5 => ["json5"]
  | .ron => ["ron"]
  | .toml => ["toml"]
  | .yaml => ["yaml", "yml"]

/-- `Format::has_extension` (lib.rs lines 222-227): strip an optional leading
period, then match case-insensitively against the declared extensions. -/
def Format.hasExtension (f : Format) (ext : String) : Bool :=
  (f.extensions).any fun x => eqIgnoreAsciiCase x (stripPrefixDot ext)

/-- `Format::from_extension` (lib.rs lines 245-247): first variant in
declaration order whose `has_extension` matches. -/
def Format.fromExtension (ext : String) : Option Format :=
  Format.iter.find? fun f => f.hasExtension ext

/-- The result of `std::path::Path::extension()` for a path: absent, present
but not valid Unicode, or a Unicode extension string (which std guarantees
carries no leading period). -/
inductive ExtStr where
  | uni (s : String)
  | notUnicode
deriving DecidableEq

/-- A file path, abstracted to the one observation the library makes of it:
its `Path::extension()` value. -/
structure Path where
  ext : Option ExtStr
deriving DecidableEq

/-- `IdentifyError` (lib.rs lines 697-711). -/
inductive IdentifyError where
  | unknown (ext : String)
  | notUnicode
  | noExtension
deriving DecidableEq

/-- `get_ext` (lib.rs lines 875-880). -/
def get_ext (p : Path) : Except IdentifyError String :=
  match p.ext with
  | none => .error .noExtension
  | some .notUnicode => .error .notUnicode
  | some (.uni s) => .ok s

/-- `Format::identify` (lib.rs lines 267-270). -/
def Format.identify (p : Path) : Except IdentifyError Format :=
  match get_ext p with
  | .error e => .error e
  | .ok ext =>
    match Format.fromExtension ext with
    | some f => .ok f
    | none => .error (.unknown ext)

lemma eq_of_eqIgnore {a b : String} (h : eqIgnoreAsciiCase a b = true) :
    lowered a = lowered b := by
  simpa [eqIgnoreAsciiCase] using h

lemma hasExtension_exists {f : Format} {e : String}
    (h : f.hasExtension e = true) :
    ∃ x ∈ f.extensions, eqIgnoreAsciiCase x (stripPrefixDot e) = true := by
  simpa [Format.hasExtension, List.any_eq_true] using h

lemma hasExtension_of_mem {f : Format} {e x : String}
    (hx : x ∈ f.extensions)
    (hm : eqIgnoreAsciiCase x (stripPrefixDot e) = true) :
    f.hasExtension e = true := by
  simp only [Format.hasExtension, List.any_eq_true]
  exact ⟨x, hx, hm⟩

/-- The declared extension sets of distinct formats share no member, even up
to ASCII case folding. -/
lemma crossFalse (f g : Format) (hne : f ≠ g) :
    (f.extensions.all fun x =>
      g.extensions.all fun y => !(lowered x == lowered y)) = true := by
  cases f <;> cases g <;> first
    | exact absurd rfl hne
    | decide

/-- An extension string matches the declared extensions of at most one
format. -/
lemma hasExtension_inj {f g : Format} {e : String}
    (hf : f.hasExtension e = true) (hg : g.hasExtension e = true) : f = g := by
  by_contra hne
  obtain ⟨x, hx, hxe⟩ := hasExtension_exists hf
  obtain ⟨y, hy, hye⟩ := hasExtension_exists hg
  have hxy : lowered x = lowered y :=
    (eq_of_eqIgnore hxe).trans (eq_of_eqIgnore hye).symm
  have hall := crossFalse f g hne
  rw [List.all_eq_true] at hall
  have h2 := hall x hx
  rw [List.all_eq_true] at h2
  have h3 := h2 y hy
  rw [hxy] at h3
  simp at h3

lemma hasExtension_false_of {f g : Format} {e : String} (hne : f ≠ g)
    (hg : g.hasExtension e = true) : f.hasExtension e = false := by
  cases h : f.hasExtension e with
  | false => rfl
  | true => exact absurd (hasExtension_inj h hg) hne

lemma fromExtension_eq {f : Format} {e : String}
    (hf : f.hasExtension e = true) : Format.fromExtension e = some f := by
  cases f with
  | json =>
    simp [Format.fromExtension, Format.iter, List.find?, hf]
  | json5 =>
    have h1 := hasExtension_false_of (f := Format.json) (by decide) hf
    simp [Format.fromExtension, Format.iter, List.find?, h1, hf]
  | ron =>
    have h1 := hasExtension_false_of (f := Format.json) (by decide) hf
    have h2 := hasExtension_false_of (f := Format.json5) (by decide) hf
    simp [Format.fromExtension, Format.iter, List.find?, h1, h2, hf]
  | toml =>
    have h1 := hasExtension_false_of (f := Format.json) (by decide) hf
    have h2 := hasExtension_false_of (f := Format.json5) (by decide) hf
    have h3 := hasExtension_false_of (f := Format.ron) (by decide) hf
    simp [Format.fromExtension, Format.iter, List.find?, h1, h2, h3, hf]
  | yaml =>
    have h1 := hasExtension_false_of (f := Format.json) (by decide) hf
    have h2 := hasExtension_false_of (f := Format.json5) (by decide) hf
    have h3 := hasExtension_false_of (f := Format.ron) (by decide) hf
    have h4 := hasExtension_false_of (f := Format.toml) (by decide) hf
    simp [Format.fromExtension, Format.iter, List.find?, h1, h2, h3, h4, hf]

lemma fromExtension_none {e : String}
    (h : ∀ f : Format, f.hasExtension e = false) :
    Format.fromExtension e = none := by
  rw [Format.fromExtension, List.find?_eq_none]
  intro g _
  simp [h g]

/-- The `Cfgfifo` struct (lib.rs lines 584-587): a restricted list of formats
plus an optional fallback. -/
structure Cfgfifo where
  formats : List Format
  fallback : Option Format
deriving DecidableEq

/-- `Cfgfifo::new` (lib.rs lines 591-596); `Default` is the same. -/
def Cfgfifo.new : Cfgfifo := { formats := Format.iter, fallback := none }

/-- The `Cfgfifo::formats` builder method (lib.rs lines 607-610). -/
def Cfgfifo.withFormats (c : Cfgfifo) (fs : List Format) : Cfgfifo :=
  { c with formats := fs }

/-- The `Cfgfifo::fallback` builder method (lib.rs lines 613-616). -/
def Cfgfifo.withFallback (c : Cfgfifo) (fb : Option Format) : Cfgfifo :=
  { c with fallback := fb }

/-- `Cfgfifo::identify` (lib.rs lines 644-656): on a `get_ext` failure return
the fallback if set, else the error; otherwise search the configured format
list and fall back to the fallback, erroring with `Unknown` if both fail. -/
def Cfgfifo.identify (c : Cfgfifo) (p : Path) : Except IdentifyError Format :=
  match get_ext p, c.fallback with
  | .ok ext, _ =>
    match (c.formats.find? fun f => f.hasExtension ext).or c.fallback with
    | some f => .ok f
    | none => .error (.unknown ext)
  | .error _, some f => .ok f
  | .error e, none => .error e

/-- Claim C1: `Format::identify` maps a path whose extension matches a
declared extension of a format (case-insensitively, with or without a
leading period) to that format; a path with no extension to the
`NoExtension` error; a path with a non-Unicode extension to `NotUnicode`;
and a path whose Unicode extension matches no format to `Unknown` carrying
that extension verbatim (std's `Path::extension` never includes the leading
period). -/
theorem c1_format_identify (p : Path) :
    (p.ext = none → Format.identify p = .error .noExtension) ∧
    (p.ext = some .notUnicode → Format.identify p = .error .notUnicode) ∧
    (∀ e f, p.ext = some (.uni e) →
      (∃ x ∈ Format.extensions f, eqIgnoreAsciiCase x (stripPrefixDot e) = true) →
      Format.identify p = .ok f) ∧
    (∀ e, p.ext = some (.uni e) →
      (∀ f : Format, ∀ x ∈ Format.extensions f,
        eqIgnoreAsciiCase x (stripPrefixDot e) = false) →
      Format.identify p = .error (.unknown e)) := by
  refine ⟨fun h => ?_, fun h => ?_, fun e f hp hex => ?_, fun e hp hnone => ?_⟩
  · simp [Format.identify, get_ext, h]
  · simp [Format.identify, get_ext, h]
  · obtain ⟨x, hx, hm⟩ := hex
    have hf : f.hasExtension e = true := hasExtension_of_mem hx hm
    simp [Format.identify, get_ext, hp, fromExtension_eq hf]
  · have hng : Format.fromExtension e = none := by
      refine fromExtension_none fun f => ?_
      simp only [Format.hasExtension, List.any_eq_false]
      intro x hx
      simp [hnone f x hx]
    simp [Format.identify, get_ext, hp, hng]

/-- Witness for C1 at concrete paths: `.YML` identifies as YAML, a path with
no extension yields `NoExtension`, and extension `cfg` yields `Unknown`. -/
theorem c1_witness :
    Format.identify ⟨some (.uni "YML")⟩ = .ok .yaml ∧
    Format.identify ⟨none⟩ = .error .noExtension ∧
    Format.identify ⟨some (.uni "cfg")⟩ = .error (.unknown "cfg") := by
  refine ⟨(c1_format_identify _).2.2.1 "YML" .yaml rfl
      ⟨"yml", by decide, by decide⟩,
    (c1_format_identify _).1 rfl,
    (c1_format_identify _).2.2.2 "cfg" rfl ?_⟩
  intro f x hx
  cases f <;> simp [Format.extensions] at hx
  all_goals first
    | (subst hx; decide)
    | (rcases hx with rfl | rfl <;> decide)

/-- Claim C2: with a fallback configured, `Cfgfifo::identify` is total: it
returns some format for every path, and whenever the same instance without a
fallback would fail it returns exactly the fallback format. -/
theorem c2_fallback_total (cfg : Cfgfifo) (f : Format) (p : Path)
    (h : cfg.fallback = some f) :
    (∃ g, cfg.identify p = .ok g) ∧
    (∀ e, Cfgfifo.identify { cfg with fallback := none } p = .error e →
      cfg.identify p = .ok f) := by
  cases hge : get_ext p with
  | error e =>
    refine ⟨⟨f, ?_⟩, fun e' _ => ?_⟩ <;> simp [Cfgfifo.identify, hge, h]
  | ok ext =>
    cases hfind : cfg.formats.find? (fun g => g.hasExtension ext) with
    | some g =>
      refine ⟨⟨g, ?_⟩, fun e' he' => ?_⟩
      · simp [Cfgfifo.identify, hge, hfind]
      · exfalso
        simp [Cfgfifo.identify, hge, hfind] at he'
    | none =>
      refine ⟨⟨f, ?_⟩, fun e' _ => ?_⟩ <;>
        simp [Cfgfifo.identify, hge, hfind, h]

/-- Witness for C2: a default instance with JSON fallback identifies an
extensionless path. -/
theorem c2_witness :
    ∃ g, (Cfgfifo.new.withFallback (some .json)).identify ⟨none⟩ = .ok g :=
  (c2_fallback_total _ .json ⟨none⟩ rfl).1

/-- Claim C3 as stated is false: if the excluded format is itself configured
as the fallback, `Cfgfifo::identify` does return the excluded format.  Here
RON is excluded from the format list yet returned for `file.ron`. -/
theorem c3_counterexample :
    Format.ron ∉
      ((Cfgfifo.new.withFormats [.json, .toml]).withFallback
        (some .ron)).formats ∧
    ((Cfgfifo.new.withFormats [.json, .toml]).withFallback
        (some .ron)).identify ⟨some (.uni "ron")⟩ = .ok .ron := by
  constructor
  · decide
  · rfl

/-- Claim C3 (amended): for a path whose extension matches a format excluded
from the configured list, `identify` yields the fallback if one is set and
the `Unknown` error otherwise; in particular it never returns the excluded
format unless that format is itself the configured fallback. -/
theorem c3_restricted (cfg : Cfgfifo) (p : Path) (fmt : Format) (e : String)
    (hmem : fmt ∉ cfg.formats)
    (hp : p.ext = some (.uni e))
    (hmatch : ∃ x ∈ Format.extensions fmt,
      eqIgnoreAsciiCase x (stripPrefixDot e) = true) :
    cfg.identify p = (match cfg.fallback with
      | some g => .ok g
      | none => .error (.unknown e)) ∧
    (cfg.fallback ≠ some fmt → cfg.identify p ≠ .ok fmt) := by
  obtain ⟨x, hx, hm⟩ := hmatch
  have hfmt : fmt.hasExtension e = true := hasExtension_of_mem hx hm
  have hfind : cfg.formats.find? (fun g => g.hasExtension e) = none := by
    rw [List.find?_eq_none]
    intro g hg
    intro hgx
    exact hmem (hasExtension_inj hgx hfmt ▸ hg)
  have hge : get_ext p = .ok e := by simp [get_ext, hp]
  cases hfb : cfg.fallback with
  | none =>
    refine ⟨?_, fun _ hok => ?_⟩
    · simp [Cfgfifo.identify, hge, hfind, hfb]
    · simp [Cfgfifo.identify, hge, hfind, hfb] at hok
  | some g =>
    refine ⟨?_, fun hne hok => ?_⟩
    · simp [Cfgfifo.identify, hge, hfind, hfb]
    · simp [Cfgfifo.identify, hge, hfind, hfb] at hok
      exact hne (congrArg some hok)

/-- Witness for the amended C3: with formats restricted to JSON and TOML and
no fallback, a `.ron` path yields the `Unknown` error. -/
theorem c3_witness :
    (Cfgfifo.new.withFormats [.json, .toml]).identify ⟨some (.uni "ron")⟩ =
      .error (.unknown "ron") :=
  (c3_restricted (Cfgfifo.new.withFormats [.json, .toml])
    ⟨some (.uni "ron")⟩ .ron "ron" (by decide) rfl
    ⟨"ron", by decide, by decide⟩).1

/-- Claim C10: a freshly constructed default `Cfgfifo` identifies every path
exactly as the free function `Format::identify` does, successes and error
variants alike. -/
theorem c10_default_identify (p : Path) :
    Cfgfifo.identify Cfgfifo.new p = Format.identify p := by
  cases hp : p.ext with
  | none => simp [Cfgfifo.identify, Format.identify, get_ext, hp, Cfgfifo.new]
  | some x =>
    cases x with
    | notUnicode =>
      simp [Cfgfifo.identify, Format.identify, get_ext, hp, Cfgfifo.new]
    | uni s =>
      have hge : get_ext p = .ok s := by simp [get_ext, hp]
      cases hfind : Format.iter.find? (fun f => f.hasExtension s) with
      | none =>
        simp [Cfgfifo.identify, Format.identify, Format.fromExtension, hge,
          Cfgfifo.new, hfind]
      | some f =>
        simp [Cfgfifo.identify, Format.identify, Format.fromExtension, hge,
          Cfgfifo.new, hfind]

/-- Modelled from the spec: a `serde_path_to_error`-style error, carrying the
structural field path at which a codec failure occurred plus the underlying
codec message (spec section 7, "surfaced with field-path context").  The
library wraps codec errors in this form via `depath`/`serpath`
(lib.rs lines 102-104). -/
structure PathErr where
  path : List String
  msg : String
deriving DecidableEq

/-- Modelled from the spec: the rendered message of a path-annotated error,
the dotted field path followed by the underlying message, as produced by
`serde_path_to_error::Error`'s Display. -/
def PathErr.display (pe : PathErr) : String :=
  String.intercalate "." pe.path ++ ": " ++ pe.msg

/-- An I/O error, abstracted to its message. -/
def IoError := String
deriving instance DecidableEq for IoError

/-- Modelled from the spec: the external codec boundary (spec section 6).
Each backend provides `encode(value) -> pretty text` and `decode(text) ->
value | structural error with field-path context`.  The streaming backends
serde_json and ron parse one value off the front of the input and leave an
unconsumed remainder, to which the library applies an explicit end-of-input
check; json5 has a separate syntax-parsing stage preceding deserialization
(`json5::Deserializer::from_str`), and ron a serializer-construction stage
(`ron::Serializer::new`) and a deserializer-construction stage
(`ron::Deserializer::from_str`). -/
structure Codecs (V : Type) where
  jsonEncode : V → Except PathErr String
  jsonParse : String → Except PathErr (V × String)
  json5Pre : String → Except String Unit
  json5De : String → Except PathErr V
  ronSerStart : Option String
  ronEncode : V → Except PathErr String
  ronPre : String → Except String Unit
  ronParse : String → Except PathErr (V × String)
  tomlEncode : V → Except PathErr String
  tomlDe : String → Except PathErr V
  yamlEncode : V → Except PathErr String
  yamlDe : String → Except PathErr V

/-- `SerializeError` (lib.rs lines 721-757), one variant per failure source.
`json` covers both the JSON and JSON5 arms, as in the source. -/
inductive SerializeError where
  | io (e : IoError)
  | json (e : PathErr)
  | ronStart (e : String)
  | ron (e : PathErr)
  | toml (e : PathErr)
  | yaml (e : PathErr)
deriving DecidableEq

/-- `DeserializeError` (lib.rs lines 767-828).  `json5SynErr` is the source's
`Json5Syntax` variant. -/
inductive DeserializeError where
  | io (e : IoError)
  | json (e : PathErr)
  | jsonEnd (e : String)
  | json5SynErr (e : String)
  | json5 (e : PathErr)
  | ronStart (e : String)
  | ron (e : PathErr)
  | ronEnd (e : String)
  | toml (e : PathErr)
  | yaml (e : PathErr)
deriving DecidableEq

/-- The rendered message of a deserialization error: path-annotated variants
display the dotted field path before the codec message (all source variants
are `#[error(transparent)]` wrappers). -/
def DeserializeError.message : DeserializeError → String
  | .io e => e
  | .json pe => pe.display
  | .jsonEnd m => m
  | .json5SynErr m => m
  | .json5 pe => pe.display
  | .ronStart m => m
  | .ron pe => pe.display
  | .ronEnd m => m
  | .toml pe => pe.display
  | .yaml pe => pe.display

/-- Whitespace as skipped by the serde_json / ron end-of-input checks. -/
def isWs (c : Char) : Bool := c == ' ' || c == '\t' || c == '\n' || c == '\r'

/-- A string containing nothing but whitespace; `Deserializer::end` succeeds
exactly on such remainders (modelled from the spec: formats that do not
self-delimit "must explicitly verify end-of-input after parsing the first
value"). -/
def wsOnly (s : String) : Bool := s.data.all isWs

/-- `Format::dump_to_string` (lib.rs lines 311-364).  The JSON5 arm uses the
serde_json pretty serializer exactly as the JSON arm does; the YAML arm goes
through `dump_to_writer` into a buffer, which for YAML is a bare
serde_yaml serialization. -/
def Format.dumpToString {V : Type} (C : Codecs V) (fmt : Format) (v : V) :
    Except SerializeError String :=
  match fmt with
  | .json =>
    match C.jsonEncode v with
    | .ok s => .ok s
    | .error e => .error (.json e)
  | .json5 =>
    match C.jsonEncode v with
    | .ok s => .ok s
    | .error e => .error (.json e)
  | .ron =>
    match C.ronSerStart with
    | some e => .error (.ronStart e)
    | none =>
      match C.ronEncode v with
      | .ok s => .ok s
      | .error e => .error (.ron e)
  | .toml =>
    match C.tomlEncode v with
    | .ok s => .ok s
    | .error e => .error (.toml e)
  | .yaml =>
    match C.yamlEncode v with
    | .ok s => .ok s
    | .error e => .error (.yaml e)

/-- `Format::dump_to_writer` (lib.rs lines 460-504), as the text written to
the writer.  The JSON, JSON5 and RON arms append a newline after the
serializer's output; the TOML arm writes the `dump_to_string` output
unchanged; the YAML arm writes the serde_yaml output unchanged. -/
def Format.dumpToWriter {V : Type} (C : Codecs V) (fmt : Format) (v : V) :
    Except SerializeError String :=
  match fmt with
  | .json =>
    match C.jsonEncode v with
    | .ok s => .ok (s ++ "\n")
    | .error e => .error (.json e)
  | .json5 =>
    match C.jsonEncode v with
    | .ok s => .ok (s ++ "\n")
    | .error e => .error (.json e)
  | .ron =>
    match C.ronSerStart with
    | some e => .error (.ronStart e)
    | none =>
      match C.ronEncode v with
      | .ok s => .ok (s ++ "\n")
      | .error e => .error (.ron e)
  | .toml =>
    match C.tomlEncode v with
    | .ok s => .ok s
    | .error e => .error (.toml e)
  | .yaml =>
    match C.yamlEncode v with
    | .ok s => .ok s
    | .error e => .error (.yaml e)

/-- `Format::load_from_str` (lib.rs lines 403-447).  JSON and RON parse one
value and then explicitly check that only whitespace remains, failing with
the dedicated `JsonEnd` / `RonEnd` variants otherwise; JSON5 runs its syntax
stage first; TOML and YAML hand the whole string to their codec. -/
def Format.loadFromStr {V : Type} (C : Codecs V) (fmt : Format) (s : String) :
    Except DeserializeError V :=
  match fmt with
  | .json =>
    match C.jsonParse s with
    | .error e => .error (.json e)
    | .ok (v, rest) =>
      if wsOnly rest then .ok v else .error (.jsonEnd "trailing characters")
  | .json5 =>
    match C.json5Pre s with
    | .error e => .error (.json5SynErr e)
    | .ok () =>
      match C.json5De s with
      | .ok v => .ok v
      | .error e => .error (.json5 e)
  | .ron =>
    match C.ronPre s with
    | .error e => .error (.ronStart e)
    | .ok () =>
      match C.ronParse s with
      | .error e => .error (.ron e)
      | .ok (v, rest) =>
        if wsOnly rest then .ok v else .error (.ronEnd "trailing characters")
  | .toml =>
    match C.tomlDe s with
    | .ok v => .ok v
    | .error e => .error (.toml e)
  | .yaml =>
    match C.yamlDe s with
    | .ok v => .ok v
    | .error e => .error (.yaml e)

/-- `Format::load_from_reader` (lib.rs lines 513-548), with the reader
abstracted to the outcome of reading it: an I/O failure surfaces as the
`Io` variant, and successfully read contents are deserialized as from a
string (the json5/ron/toml arms do exactly this; the streaming json/yaml
arms consume the same bytes). -/
def Format.loadFromReader {V : Type} (C : Codecs V) (fmt : Format)
    (r : Except IoError String) : Except DeserializeError V :=
  match r with
  | .error e => .error (.io e)
  | .ok s => Format.loadFromStr C fmt s

/-- `LoadError` (lib.rs lines 832-845); `openErr` is the source's `Open`. -/
inductive LoadError where
  | identify (e : IdentifyError)
  | openErr (e : IoError)
  | deserialize (e : DeserializeError)
deriving DecidableEq

/-- `DumpError` (lib.rs lines 849-866); `openErr` is the source's `Open`. -/
inductive DumpError where
  | identify (e : IdentifyError)
  | openErr (e : IoError)
  | serialize (e : SerializeError)
  | flush (e : IoError)
deriving DecidableEq

/-- `Cfgfifo::load` (lib.rs lines 666-670), with the file system abstracted
to the outcome of opening and reading the file. -/
def Cfgfifo.load {V : Type} (C : Codecs V) (cfg : Cfgfifo) (p : Path)
    (openR : Except IoError String) : Except LoadError V :=
  match cfg.identify p with
  | .error e => .error (.identify e)
  | .ok fmt =>
    match openR with
    | .error e => .error (.openErr e)
    | .ok contents =>
      match Format.loadFromReader C fmt (.ok contents) with
      | .error e => .error (.deserialize e)
      | .ok v => .ok v

/-- `Cfgfifo::dump` (lib.rs lines 680-685), with the file system abstracted
to the outcomes of creating the file and of the final flush. -/
def Cfgfifo.dump {V : Type} (C : Codecs V) (cfg : Cfgfifo) (p : Path) (v : V)
    (openR : Except IoError Unit) (flushR : Except IoError Unit) :
    Except DumpError Unit :=
  match cfg.identify p with
  | .error e => .error (.identify e)
  | .ok fmt =>
    match openR with
    | .error e => .error (.openErr e)
    | .ok () =>
      match Format.dumpToWriter C fmt v with
      | .error e => .error (.serialize e)
      | .ok _ =>
        match flushR with
        | .error e => .error (.flush e)
        | .ok () => .ok ()

/-- True when the string's final character is a newline. -/
def endsWithNl (s : String) : Bool :=
  match s.data.reverse with
  | [] => false
  | c :: _ => c == '\n'

/-- True when the string ends with a newline that is not preceded by another
newline, i.e. with exactly one trailing newline. -/
def endsExactlyOneNl (s : String) : Bool :=
  match s.data.reverse with
  | [] => false
  | c :: rest =>
    c == '\n' &&
      (match rest with
       | [] => true
       | d :: _ => !(d == '\n'))

lemma endsExactlyOneNl_append {s : String} (h : endsWithNl s = false) :
    endsExactlyOneNl (s ++ "\n") = true := by
  have hd : (s ++ "\n").data = s.data ++ ['\n'] := by
    simp [String.data_append]
  rw [endsExactlyOneNl, hd, List.reverse_append]
  simp only [List.reverse_cons, List.reverse_nil, List.nil_append,
    List.cons_append]
  rw [endsWithNl] at h
  cases hs : s.data.reverse with
  | nil => simp
  | cons d l =>
    rw [hs] at h
    simpa using h

/-- A concrete single-value codec suite used by the witnesses: the value `0`
encodes as serde_json / ron pretty-print the integer zero (the bare text
`0`, no trailing newline), as a one-line TOML table, and as the YAML
document `0` followed by serde_yaml's own newline.  Decoders for the
streaming backends consume a leading `0` and leave the rest; the others
accept exactly their encoder's output and otherwise fail with a
field-path-annotated error at `primitives.integer`. -/
def peW : PathErr :=
  { path := ["primitives", "integer"],
    msg := "invalid type: floating point, expected u32" }

/-- The witness codec suite over `Nat` values. -/
def wc : Codecs Nat where
  jsonEncode := fun _ => .ok "0"
  jsonParse := fun s =>
    match s.data with
    | '0' :: rest => .ok (0, String.mk rest)
    | _ => .error peW
  json5Pre := fun _ => .ok ()
  json5De := fun s => if s = "0" then .ok 0 else .error peW
  ronSerStart := none
  ronEncode := fun _ => .ok "0"
  ronPre := fun _ => .ok ()
  ronParse := fun s =>
    match s.data with
    | '0' :: rest => .ok (0, String.mk rest)
    | _ => .error peW
  tomlEncode := fun _ => .ok "integer = 42\n"
  tomlDe := fun s => if s = "integer = 42\n" then .ok 0 else .error peW
  yamlEncode := fun _ => .ok "0\n"
  yamlDe := fun s => if s = "0\n" then .ok 0 else .error peW

/-- Claim C4: for every format, a value the format can encode decodes back
to itself: `load_from_str` inverts `dump_to_string`.  The codec-level
round-trip facts for the given value are hypotheses, since the codecs are
external collaborators (spec sections 1 and 6); the theorem shows the
dispatch glue — serializer choice, json5-via-serde_json, the end-of-input
checks — preserves them. -/
theorem c4_roundtrip {V : Type} (C : Codecs V) (v : V)
    (hj : ∀ s, C.jsonEncode v = .ok s → C.jsonParse s = .ok (v, ""))
    (hj5 : ∀ s, C.jsonEncode v = .ok s →
      C.json5Pre s = .ok () ∧ C.json5De s = .ok v)
    (hr : ∀ s, C.ronEncode v = .ok s →
      C.ronPre s = .ok () ∧ C.ronParse s = .ok (v, ""))
    (ht : ∀ s, C.tomlEncode v = .ok s → C.tomlDe s = .ok v)
    (hy : ∀ s, C.yamlEncode v = .ok s → C.yamlDe s = .ok v) :
    ∀ fmt s, Format.dumpToString C fmt v = .ok s →
      Format.loadFromStr C fmt s = .ok v := by
  intro fmt s hdump
  cases fmt with
  | json =>
    have henc : C.jsonEncode v = .ok s := by
      revert hdump
      cases he : C.jsonEncode v <;> simp [Format.dumpToString, he]
    simp [Format.loadFromStr, hj s henc, wsOnly]
  | json5 =>
    have henc : C.jsonEncode v = .ok s := by
      revert hdump
      cases he : C.jsonEncode v <;> simp [Format.dumpToString, he]
    obtain ⟨h1, h2⟩ := hj5 s henc
    simp [Format.loadFromStr, h1, h2]
  | ron =>
    cases hst : C.ronSerStart with
    | some e => simp [Format.dumpToString, hst] at hdump
    | none =>
      have henc : C.ronEncode v = .ok s := by
        revert hdump
        cases he : C.ronEncode v <;> simp [Format.dumpToString, hst, he]
      obtain ⟨h1, h2⟩ := hr s henc
      simp [Format.loadFromStr, h1, h2, wsOnly]
  | toml =>
    have henc : C.tomlEncode v = .ok s := by
      revert hdump
      cases he : C.tomlEncode v <;> simp [Format.dumpToString, he]
    simp [Format.loadFromStr, ht s henc]
  | yaml =>
    have henc : C.yamlEncode v = .ok s := by
      revert hdump
      cases he : C.yamlEncode v <;> simp [Format.dumpToString, he]
    simp [Format.loadFromStr, hy s henc]

/-- Witness for C4 at the concrete codec suite: the TOML round trip of the
value `0`. -/
theorem c4_witness : Format.loadFromStr wc .toml "integer = 42\n" = .ok 0 :=
  c4_roundtrip wc 0
    (fun s h => by
      simp only [wc] at h
      cases h
      rfl)
    (fun s h => by
      simp only [wc] at h
      cases h
      exact ⟨rfl, rfl⟩)
    (fun s h => by
      simp only [wc] at h
      cases h
      exact ⟨rfl, rfl⟩)
    (fun s h => by
      simp only [wc] at h
      cases h
      rfl)
    (fun s h => by
      simp only [wc] at h
      cases h
      rfl)
    .toml "integer = 42\n" rfl

/-- Claim C5 as stated is false for `dump_to_string`: the JSON arm returns
the serde_json pretty output unchanged, which carries no trailing newline
(the source's own doc example, lib.rs lines 295-304, asserts output ending
in a closing brace).  With the witness codec, serializing the value `0`
yields the bare text `0`. -/
theorem c5_counterexample :
    Format.dumpToString wc .json 0 = .ok "0" ∧
    endsExactlyOneNl "0" = false := ⟨rfl, rfl⟩

/-- Claim C5 (amended): the writer-based dump operations (`dump_to_writer`,
and hence `dump`, which writes exactly those bytes) always produce output
ending in exactly one newline — given the backends' newline behaviour: the
serde_json and ron pretty serializers do not emit a trailing newline (one is
appended), while the toml and serde_yaml serializers emit exactly one.
`dump_to_string` does not share this guarantee. -/
theorem c5_writer_newline {V : Type} (C : Codecs V) (v : V)
    (hj : ∀ s, C.jsonEncode v = .ok s → endsWithNl s = false)
    (hr : ∀ s, C.ronEncode v = .ok s → endsWithNl s = false)
    (ht : ∀ s, C.tomlEncode v = .ok s → endsExactlyOneNl s = true)
    (hy : ∀ s, C.yamlEncode v = .ok s → endsExactlyOneNl s = true) :
    ∀ fmt s, Format.dumpToWriter C fmt v = .ok s →
      endsExactlyOneNl s = true := by
  intro fmt s hdump
  cases fmt with
  | json =>
    revert hdump
    cases he : C.jsonEncode v <;> simp [Format.dumpToWriter, he]
    intro h
    subst h
    exact endsExactlyOneNl_append (hj _ he)
  | json5 =>
    revert hdump
    cases he : C.jsonEncode v <;> simp [Format.dumpToWriter, he]
    intro h
    subst h
    exact endsExactlyOneNl_append (hj _ he)
  | ron =>
    cases hst : C.ronSerStart with
    | some e => simp [Format.dumpToWriter, hst] at hdump
    | none =>
      revert hdump
      cases he : C.ronEncode v <;> simp [Format.dumpToWriter, hst, he]
      intro h
      subst h
      exact endsExactlyOneNl_append (hr _ he)
  | toml =>
    revert hdump
    cases he : C.tomlEncode v <;> simp [Format.dumpToWriter, he]
    intro h
    subst h
    exact ht _ he
  | yaml =>
    revert hdump
    cases he : C.yamlEncode v <;> simp [Format.dumpToWriter, he]
    intro h
    subst h
    exact hy _ he

/-- Witness for the amended C5: the JSON writer output for the value `0`
under the witness codec ends in exactly one newline. -/
theorem c5_witness : endsExactlyOneNl ("0" ++ "\n") = true :=
  c5_writer_newline wc 0
    (fun s h => by
      simp only [wc] at h
      cases h
      rfl)
    (fun s h => by
      simp only [wc] at h
      cases h
      rfl)
    (fun s h => by
      simp only [wc] at h
      cases h
      rfl)
    (fun s h => by
      simp only [wc] at h
      cases h
      rfl)
    .json ("0" ++ "\n") rfl

/-- Claim C9: the JSON5 serialization arms delegate to the same serde_json
pretty serializer as the JSON arms, so for every codec suite and value the
two formats produce identical `dump_to_string` and `dump_to_writer`
output. -/
theorem c9_json5_serializes_as_json {V : Type} (C : Codecs V) (v : V) :
    Format.dumpToString C .json5 v = Format.dumpToString C .json v ∧
    Format.dumpToWriter C .json5 v = Format.dumpToWriter C .json v :=
  ⟨rfl, rfl⟩

lemma wsOnly_false {t : String}
    (h : t.data.any (fun c => !isWs c) = true) : wsOnly t = false := by
  rw [wsOnly]
  rcases List.any_eq_true.mp h with ⟨c, hc, hnc⟩
  cases hall : t.data.all isWs with
  | false => rfl
  | true =>
    have := List.all_eq_true.mp hall c hc
    simp [this] at hnc

/-- Claim C6: on input made of a structurally valid document followed by
trailing non-whitespace content, every format's deserialization fails.  For
the streaming JSON and RON backends — which leave the trailing text
unconsumed — the library's explicit end-of-input check produces the
dedicated `JsonEnd` / `RonEnd` variants; for the whole-input backends
(json5, toml, yaml, whose rejection of trailing content is their own
contract and is a hypothesis here) the codec error is propagated, never the
parsed value.  `load_from_reader` on the same bytes behaves identically. -/
theorem c6_trailing_input {V : Type} (C : Codecs V) (doc t : String) (v : V)
    (hts : t.data.any (fun c => !isWs c) = true)
    (hjp : C.jsonParse (doc ++ t) = .ok (v, t))
    (hrpre : C.ronPre (doc ++ t) = .ok ())
    (hrp : C.ronParse (doc ++ t) = .ok (v, t))
    (h5 : C.json5Pre (doc ++ t) = .ok () →
      ∃ e, C.json5De (doc ++ t) = .error e)
    (htm : ∃ e, C.tomlDe (doc ++ t) = .error e)
    (hym : ∃ e, C.yamlDe (doc ++ t) = .error e) :
    Format.loadFromStr C .json (doc ++ t) =
      .error (.jsonEnd "trailing characters") ∧
    Format.loadFromStr C .ron (doc ++ t) =
      .error (.ronEnd "trailing characters") ∧
    (∀ w, Format.loadFromStr C .json5 (doc ++ t) ≠ .ok w) ∧
    (∀ w, Format.loadFromStr C .toml (doc ++ t) ≠ .ok w) ∧
    (∀ w, Format.loadFromStr C .yaml (doc ++ t) ≠ .ok w) ∧
    (∀ fmt, Format.loadFromReader C fmt (.ok (doc ++ t)) =
      Format.loadFromStr C fmt (doc ++ t)) := by
  have hws := wsOnly_false hts
  refine ⟨?_, ?_, ?_, ?_, ?_, fun _ => rfl⟩
  · simp [Format.loadFromStr, hjp, hws]
  · simp [Format.loadFromStr, hrpre, hrp, hws]
  · intro w
    cases hpre : C.json5Pre (doc ++ t) with
    | error e => simp [Format.loadFromStr, hpre]
    | ok u =>
      cases u
      obtain ⟨e, he⟩ := h5 hpre
      simp [Format.loadFromStr, hpre, he]
  · intro w
    obtain ⟨e, he⟩ := htm
    simp [Format.loadFromStr, he]
  · intro w
    obtain ⟨e, he⟩ := hym
    simp [Format.loadFromStr, he]

/-- Witness for C6: under the witness codec the input `0x` — the valid
document `0` followed by the non-whitespace trailing text `x` — yields the
`JsonEnd` and `RonEnd` errors. -/
theorem c6_witness :
    Format.loadFromStr wc .json ("0" ++ "x") =
      .error (.jsonEnd "trailing characters") ∧
    Format.loadFromStr wc .ron ("0" ++ "x") =
      .error (.ronEnd "trailing characters") := by
  have h := c6_trailing_input wc "0" "x" 0 (by decide) rfl rfl rfl
    (fun _ => ⟨peW, rfl⟩) ⟨peW, rfl⟩ ⟨peW, rfl⟩
  exact ⟨h.1, h.2.1⟩

/-- Claim C7: `load` and `dump` report the first failing pipeline stage as
their single wrapped cause — identify/open/deserialize for `load`,
identify/open/serialize/flush for `dump` — every error value is exactly one
of those variants, and a flush failure after a successful serialization is
the `Flush` variant, distinct from the identify, open and serialize
variants. -/
theorem c7_error_wrapping {V : Type} (C : Codecs V) (cfg : Cfgfifo)
    (p : Path) (v : V) (oL : Except IoError String)
    (oD : Except IoError Unit) (fD : Except IoError Unit) :
    (∀ e, cfg.identify p = .error e →
      Cfgfifo.load C cfg p oL = .error (.identify e)) ∧
    (∀ fmt e, cfg.identify p = .ok fmt → oL = .error e →
      Cfgfifo.load C cfg p oL = .error (.openErr e)) ∧
    (∀ fmt s e, cfg.identify p = .ok fmt → oL = .ok s →
      Format.loadFromStr C fmt s = .error e →
      Cfgfifo.load C cfg p oL = .error (.deserialize e)) ∧
    (∀ le : LoadError, (∃ a, le = .identify a) ∨ (∃ a, le = .openErr a) ∨
      (∃ a, le = .deserialize a)) ∧
    (∀ e, cfg.identify p = .error e →
      Cfgfifo.dump C cfg p v oD fD = .error (.identify e)) ∧
    (∀ fmt e, cfg.identify p = .ok fmt → oD = .error e →
      Cfgfifo.dump C cfg p v oD fD = .error (.openErr e)) ∧
    (∀ fmt e, cfg.identify p = .ok fmt → oD = .ok () →
      Format.dumpToWriter C fmt v = .error e →
      Cfgfifo.dump C cfg p v oD fD = .error (.serialize e)) ∧
    (∀ fmt s e, cfg.identify p = .ok fmt → oD = .ok () →
      Format.dumpToWriter C fmt v = .ok s → fD = .error e →
      Cfgfifo.dump C cfg p v oD fD = .error (.flush e)) ∧
    (∀ de : DumpError, (∃ a, de = .identify a) ∨ (∃ a, de = .openErr a) ∨
      (∃ a, de = .serialize a) ∨ (∃ a, de = .flush a)) ∧
    (∀ (a b : IoError), DumpError.flush a ≠ DumpError.openErr b) ∧
    (∀ a se, DumpError.flush a ≠ DumpError.serialize se) ∧
    (∀ a ie, DumpError.flush a ≠ DumpError.identify ie) := by
  refine ⟨fun e h => ?_, fun fmt e h ho => ?_, fun fmt s e h ho hd => ?_,
    fun le => ?_, fun e h => ?_, fun fmt e h ho => ?_,
    fun fmt e h ho hd => ?_, fun fmt s e h ho hd hf => ?_, fun de => ?_,
    fun a b => by simp, fun a se => by simp, fun a ie => by simp⟩
  · simp [Cfgfifo.load, h]
  · simp [Cfgfifo.load, h, ho]
  · simp [Cfgfifo.load, Format.loadFromReader, h, ho, hd]
  · cases le with
    | identify a => exact Or.inl ⟨a, rfl⟩
    | openErr a => exact Or.inr (Or.inl ⟨a, rfl⟩)
    | deserialize a => exact Or.inr (Or.inr ⟨a, rfl⟩)
  · simp [Cfgfifo.dump, h]
  · simp [Cfgfifo.dump, h, ho]
  · simp [Cfgfifo.dump, h, ho, hd]
  · simp [Cfgfifo.dump, h, ho, hd, hf]
  · cases de with
    | identify a => exact Or.inl ⟨a, rfl⟩
    | openErr a => exact Or.inr (Or.inl ⟨a, rfl⟩)
    | serialize a => exact Or.inr (Or.inr (Or.inl ⟨a, rfl⟩))
    | flush a => exact Or.inr (Or.inr (Or.inr ⟨a, rfl⟩))

/-- Witness for C7: a dump in which identification, the open and the
serialization all succeed but the flush fails reports the `Flush` cause. -/
theorem c7_witness :
    Cfgfifo.dump wc Cfgfifo.new ⟨some (.uni "json")⟩ 0 (.ok ())
      (.error "flush failed") = .error (.flush "flush failed") := by
  have h := c7_error_wrapping wc Cfgfifo.new ⟨some (.uni "json")⟩ 0
    (.ok "") (.ok ()) (.error "flush failed")
  exact h.2.2.2.2.2.2.2.1 .json ("0" ++ "\n") "flush failed" rfl rfl rfl rfl

/-- Claim C8: when a codec reports a deserialization failure annotated with
a structural field path, `load_from_str` surfaces it in the corresponding
path-carrying error variant, and that variant's rendered message begins
with the full dotted field path. -/
theorem c8_field_path {V : Type} (C : Codecs V) (s : String) (pe : PathErr) :
    (C.jsonParse s = .error pe →
      Format.loadFromStr C .json s = .error (.json pe)) ∧
    (C.json5Pre s = .ok () → C.json5De s = .error pe →
      Format.loadFromStr C .json5 s = .error (.json5 pe)) ∧
    (C.ronPre s = .ok () → C.ronParse s = .error pe →
      Format.loadFromStr C .ron s = .error (.ron pe)) ∧
    (C.tomlDe s = .error pe →
      Format.loadFromStr C .toml s = .error (.toml pe)) ∧
    (C.yamlDe s = .error pe →
      Format.loadFromStr C .yaml s = .error (.yaml pe)) ∧
    (∀ e : DeserializeError,
      (e = .json pe ∨ e = .json5 pe ∨ e = .ron pe ∨ e = .toml pe ∨
        e = .yaml pe) →
      ∃ r, e.message = String.intercalate "." pe.path ++ r) := by
  refine ⟨fun h => ?_, fun h1 h2 => ?_, fun h1 h2 => ?_, fun h => ?_,
    fun h => ?_, fun e he => ?_⟩
  · simp [Format.loadFromStr, h]
  · simp [Format.loadFromStr, h1, h2]
  · simp [Format.loadFromStr, h1, h2]
  · simp [Format.loadFromStr, h]
  · simp [Format.loadFromStr, h]
  · refine ⟨": " ++ pe.msg, ?_⟩
    rcases he with rfl | rfl | rfl | rfl | rfl <;>
      simp [DeserializeError.message, PathErr.display, String.append_assoc]

/-- Witness for C8: the witness codec rejects the input `bad` with an error
at the field path `primitives.integer`, and the surfaced TOML error's
message starts with that dotted path. -/
theorem c8_witness :
    Format.loadFromStr wc .toml "bad" = .error (.toml peW) ∧
    ∃ r, (DeserializeError.toml peW).message = "primitives.integer" ++ r := by
  have h := c8_field_path wc "bad" peW
  refine ⟨h.2.2.2.1 rfl, ?_⟩
  have h2 := h.2.2.2.2.2 (.toml peW) (by simp)
  simpa [peW] using h2

end Cfg
